import Mathlib

/-!
Verification of the classy_blocks mesh assembly / grading / optimization core.

The Python source is embedded shallowly: floats become exact rationals `ℚ`,
`scipy` minimizers become universally-quantified oracles, exceptions become
`Except`, and mutable objects become explicit state records.  Definitions are
translated from `src/` wherever the corresponding file is present; pieces of
the repository that are not under `src/` (utility constants, the base clamp
class, the grid quality aggregate) are modelled from the specification and
carry a doc comment saying so.
-/

namespace ClassyBlocks

/-! ## Geometry primitives (exact-rational points) -/

/-- A 3D point with rational coordinates (the source uses numpy float arrays). -/
structure Pt where
  x : ℚ
  y : ℚ
  z : ℚ
deriving DecidableEq, Repr

/-- Squared Euclidean distance between two points.  The source compares
`f.norm(vertex.point - position) < constants.tol`; squaring both sides keeps
the comparison inside exact rational arithmetic. -/
def normSq (a b : Pt) : ℚ :=
  (a.x - b.x) ^ 2 + (a.y - b.y) ^ 2 + (a.z - b.z) ^ 2

/-- Modelled from the spec: the fixed absolute vertex-coincidence tolerance,
"a small constant, e.g. 1e-7 length units" (`util/constants.py` is not under
`src/`). -/
def tol : ℚ := 1 / 10 ^ 7

/-- `f.norm(vertex.point - position) < constants.tol`, stated on squares. -/
def close (a b : Pt) : Bool := decide (normSq a b < tol ^ 2)

/-- `define.vertex.Vertex` as `VertexList` uses it: a point plus the
`mesh_index` assigned during assembly. -/
structure MVertex where
  point : Pt
  mesh_index : ℕ
deriving DecidableEq, Repr

/-! ## VertexList.find and the first (deduplication) pass of collect
(`src/src/classy_blocks/process/lists/vertices.py`) -/

/-- `VertexList.find`: linear scan for an already-registered vertex within
tolerance of `position`; first hit wins. -/
def VertexList.find (vertices : List MVertex) (position : Pt) : Option MVertex :=
  vertices.find? (fun v => close v.point position)

/-- One corner of the first loop of `VertexList.collect`: reuse a found vertex,
otherwise register a new one carrying the next sequential index. -/
def registerPoint (vertices : List MVertex) (p : Pt) : List MVertex × MVertex :=
  match VertexList.find vertices p with
  | some v => (vertices, v)
  | none =>
    let v : MVertex := ⟨p, vertices.length⟩
    (vertices ++ [v], v)

/-- The inner loop of the first pass of `VertexList.collect` over one block's
corner points; returns the grown vertex list and the vertex now referenced by
each corner slot. -/
def collectPoints : List MVertex → List Pt → List MVertex × List MVertex
  | vertices, [] => (vertices, [])
  | vertices, p :: ps =>
    let r := registerPoint vertices p
    let rest := collectPoints r.1 ps
    (rest.1, r.2 :: rest.2)

/-- The outer loop of the first pass of `VertexList.collect`, blocks in
insertion order. -/
def collectBlocks : List MVertex → List (List Pt) → List MVertex × List (List MVertex)
  | vertices, [] => (vertices, [])
  | vertices, b :: bs =>
    let r := collectPoints vertices b
    let rest := collectBlocks r.1 bs
    (rest.1, r.2 :: rest.2)

/-- The corner point of block `bi`, slot `k`, of the input block list. -/
def corner (bs : List (List Pt)) (bi k : ℕ) : Option Pt :=
  (bs[bi]?).bind (fun b => b[k]?)

/-- The vertex referenced by block `bi`, slot `k`, after collection. -/
def assigned (asgs : List (List MVertex)) (bi k : ℕ) : Option MVertex :=
  (asgs[bi]?).bind (fun a => a[k]?)

/-! ## The merged-patch (slave duplication) pass of VertexList.collect -/

/-- One of the six sides of a hexahedral block. -/
inductive Orient
  | bottom | top | left | right | front | back
deriving DecidableEq, Repr

/-- Modelled from the spec: the side-to-corner map of a hexahedron
(`constants.face_map`, used by `Block.get_side_indexes`, is not under `src/`).
The bottom face is corners 0-3, the top face corners 4-7, and each lateral side
joins two bottom corners to the two top corners above them. -/
def sideIndexes : Orient → List ℕ
  | .bottom => [0, 1, 2, 3]
  | .top => [4, 5, 6, 7]
  | .left => [4, 0, 3, 7]
  | .right => [5, 1, 2, 6]
  | .front => [4, 5, 1, 0]
  | .back => [7, 6, 2, 3]

/-- Modelled from the spec: a block's construction data as the merged-patch
pass reads it (`define/block.py` is not under `src/`): its 8 corner points and
its `set_patch` assignments of a patch name to a side. -/
structure PBlock where
  corners : List Pt
  patches : List (String × Orient)

/-- `patch in block.patches`. -/
def PBlock.has_patch (b : PBlock) (patch : String) : Bool :=
  b.patches.any (fun pr => pr.1 == patch)

/-- `block.get_patch_sides(patch)`: the sides carrying the given patch name. -/
def PBlock.get_patch_sides (b : PBlock) (patch : String) : List Orient :=
  (b.patches.filter (fun pr => pr.1 == patch)).map (fun pr => pr.2)

/-- Mutable state of the merged-patch pass: the global vertex list, each
block's vertex slots, and the `duplicated_points` memo
`{original_index: new_vertex}` in insertion order. -/
structure DupState where
  vertices : List MVertex
  blocks : List (List MVertex)
  duplicated_points : List (ℕ × MVertex)
deriving Repr

/-- Dictionary lookup `duplicated_points[key]`. -/
def dupLookup (d : List (ℕ × MVertex)) (key : ℕ) : Option MVertex :=
  (d.find? (fun pr => pr.1 == key)).map (fun pr => pr.2)

/-- `block.vertices[i] = v` for block `bi`. -/
def setSlot (blocks : List (List MVertex)) (bi i : ℕ) (v : MVertex) :
    List (List MVertex) :=
  blocks.set bi ((blocks.getD bi []).set i v)

/-- The body of the innermost loop of the merged-patch pass: read
`vertex = block.vertices[i]`; if its `mesh_index` is not yet memoized, append a
freshly indexed duplicate at the same point and memoize it, else rewrite the
slot to the memoized duplicate. -/
def processSlot (st : DupState) (bi i : ℕ) : DupState :=
  match (st.blocks[bi]?).bind (fun b => b[i]?) with
  | none => st
  | some vertex =>
    match dupLookup st.duplicated_points vertex.mesh_index with
    | none =>
      let new_vertex : MVertex := ⟨vertex.point, st.vertices.length⟩
      { vertices := st.vertices ++ [new_vertex]
        blocks := setSlot st.blocks bi i new_vertex
        duplicated_points := st.duplicated_points ++ [(vertex.mesh_index, new_vertex)] }
    | some nv => { st with blocks := setSlot st.blocks bi i nv }

/-- `for i in face_indexes:` over one side of one block. -/
def processSide (st : DupState) (bi : ℕ) (side : Orient) : DupState :=
  (sideIndexes side).foldl (fun s i => processSlot s bi i) st

/-- `if patch in block.patches: for side in block.get_patch_sides(patch): ...`
for one block. -/
def processBlockPatch (pblocks : List PBlock) (patch : String) (st : DupState)
    (bi : ℕ) : DupState :=
  match pblocks[bi]? with
  | none => st
  | some pb =>
    if pb.has_patch patch then
      (pb.get_patch_sides patch).foldl (fun s side => processSide s bi side) st
    else st

/-- `for block in blocks:` inside the slave-patch loop. -/
def processPatch (pblocks : List PBlock) (st : DupState) (patch : String) :
    DupState :=
  (List.range pblocks.length).foldl (fun s bi => processBlockPatch pblocks patch s bi) st

/-- `for patch in slave_patches:` — the whole merged-patch pass. -/
def duplicateSlaves (pblocks : List PBlock) (merged_patches : List (String × String))
    (st : DupState) : DupState :=
  (merged_patches.map (fun mp => mp.2)).foldl (fun s patch => processPatch pblocks s patch) st

/-- `VertexList.collect`: the deduplication pass over all blocks followed by the
merged-patch duplication pass. -/
def vertexListCollect (pblocks : List PBlock) (merged_patches : List (String × String)) :
    DupState :=
  let r := collectBlocks [] (pblocks.map (fun b => b.corners))
  duplicateSlaves pblocks merged_patches ⟨r.1, r.2, []⟩

/-! ## Concrete inputs for the assembly claims -/

/-- The unit cube's 8 corners in block order (bottom face then top face). -/
def unitCube : List Pt :=
  [⟨0,0,0⟩, ⟨1,0,0⟩, ⟨1,1,0⟩, ⟨0,1,0⟩, ⟨0,0,1⟩, ⟨1,0,1⟩, ⟨1,1,1⟩, ⟨0,1,1⟩]

/-- A second unit cube translated by one along x: it shares a face with
`unitCube`. -/
def unitCubeShifted : List Pt :=
  [⟨1,0,0⟩, ⟨2,0,0⟩, ⟨2,1,0⟩, ⟨1,1,0⟩, ⟨1,0,1⟩, ⟨2,0,1⟩, ⟨2,1,1⟩, ⟨1,1,1⟩]

/-- The unit cube with its first corner nudged along x by `d`. -/
def nudgedCube (d : ℚ) : List Pt :=
  [⟨d,0,0⟩, ⟨1,0,0⟩, ⟨1,1,0⟩, ⟨0,1,0⟩, ⟨0,0,1⟩, ⟨1,0,1⟩, ⟨1,1,1⟩, ⟨0,1,1⟩]

/-- One block carrying the slave patch on two adjacent sides (bottom and
front), which share the corners in slots 0 and 1. -/
def slaveTwoSidesBlock : PBlock :=
  ⟨unitCube, [("slave", .bottom), ("slave", .front)]⟩

/-! ## Lemmas about the deduplication pass -/

theorem close_self (p : Pt) : close p p = true := by
  simp only [close, normSq, sub_self, decide_eq_true_eq]
  norm_num [tol]

theorem find_append_of_some {vs e : List MVertex} {p : Pt} {v : MVertex}
    (h : VertexList.find vs p = some v) : VertexList.find (vs ++ e) p = some v := by
  unfold VertexList.find at h ⊢
  rw [List.find?_append, h]
  rfl

theorem registerPoint_of_find_some {vs : List MVertex} {p : Pt} {v : MVertex}
    (h : VertexList.find vs p = some v) : registerPoint vs p = (vs, v) := by
  unfold registerPoint
  rw [h]

theorem registerPoint_of_find_none {vs : List MVertex} {p : Pt}
    (h : VertexList.find vs p = none) :
    registerPoint vs p = (vs ++ [⟨p, vs.length⟩], ⟨p, vs.length⟩) := by
  unfold registerPoint
  rw [h]

theorem registerPoint_extend (vs : List MVertex) (p : Pt) :
    ∃ e, (registerPoint vs p).1 = vs ++ e := by
  cases h : VertexList.find vs p with
  | none => exact ⟨_, by rw [registerPoint_of_find_none h]⟩
  | some v => exact ⟨[], by rw [registerPoint_of_find_some h, List.append_nil]⟩

theorem registerPoint_find (vs : List MVertex) (p : Pt) :
    VertexList.find (registerPoint vs p).1 p = some (registerPoint vs p).2 := by
  cases h : VertexList.find vs p with
  | some v => rw [registerPoint_of_find_some h]; exact h
  | none =>
    rw [registerPoint_of_find_none h]
    unfold VertexList.find at h ⊢
    rw [List.find?_append, h]
    simp [close_self]

theorem collectPoints_cons (vs : List MVertex) (p : Pt) (ps : List Pt) :
    collectPoints vs (p :: ps) =
      ((collectPoints (registerPoint vs p).1 ps).1,
        (registerPoint vs p).2 :: (collectPoints (registerPoint vs p).1 ps).2) := rfl

theorem collectBlocks_cons (vs : List MVertex) (b : List Pt) (bs : List (List Pt)) :
    collectBlocks vs (b :: bs) =
      ((collectBlocks (collectPoints vs b).1 bs).1,
        (collectPoints vs b).2 :: (collectBlocks (collectPoints vs b).1 bs).2) := rfl

theorem collectPoints_extend (ps : List Pt) :
    ∀ (vs : List MVertex), ∃ e, (collectPoints vs ps).1 = vs ++ e := by
  induction ps with
  | nil => exact fun vs => ⟨[], (List.append_nil vs).symm⟩
  | cons p ps ih =>
    intro vs
    obtain ⟨e1, he1⟩ := registerPoint_extend vs p
    obtain ⟨e2, he2⟩ := ih (registerPoint vs p).1
    refine ⟨e1 ++ e2, ?_⟩
    rw [collectPoints_cons]
    show (collectPoints (registerPoint vs p).1 ps).1 = _
    rw [he2, he1, List.append_assoc]

/-- Every processed corner is assigned a vertex that the final vertex list's
`find` still returns for that corner's exact point. -/
theorem collectPoints_canon (ps : List Pt) :
    ∀ (vs : List MVertex) (i : ℕ) (p : Pt), ps[i]? = some p →
      ∃ v, (collectPoints vs ps).2[i]? = some v ∧
        VertexList.find (collectPoints vs ps).1 p = some v := by
  induction ps with
  | nil => intro vs i p h; simp at h
  | cons q ps ih =>
    intro vs i p h
    match i with
    | 0 =>
      simp only [List.getElem?_cons_zero, Option.some.injEq] at h
      subst h
      refine ⟨(registerPoint vs q).2, by simp [collectPoints_cons], ?_⟩
      obtain ⟨e, he⟩ := collectPoints_extend ps (registerPoint vs q).1
      rw [collectPoints_cons]
      show VertexList.find (collectPoints (registerPoint vs q).1 ps).1 q = _
      rw [he]
      exact find_append_of_some (registerPoint_find vs q)
    | i + 1 =>
      simp only [List.getElem?_cons_succ] at h
      obtain ⟨v, hv1, hv2⟩ := ih (registerPoint vs q).1 i p h
      refine ⟨v, ?_, ?_⟩
      · rw [collectPoints_cons]
        simpa using hv1
      · rw [collectPoints_cons]
        exact hv2

theorem collectBlocks_extend (bs : List (List Pt)) :
    ∀ (vs : List MVertex), ∃ e, (collectBlocks vs bs).1 = vs ++ e := by
  induction bs with
  | nil => exact fun vs => ⟨[], (List.append_nil vs).symm⟩
  | cons b bs ih =>
    intro vs
    obtain ⟨e1, he1⟩ := collectPoints_extend b vs
    obtain ⟨e2, he2⟩ := ih (collectPoints vs b).1
    refine ⟨e1 ++ e2, ?_⟩
    rw [collectBlocks_cons]
    show (collectBlocks (collectPoints vs b).1 bs).1 = _
    rw [he2, he1, List.append_assoc]

/-- Block-level canonicity: every corner slot is assigned the vertex that the
final vertex list's `find` returns for that corner's exact point. -/
theorem collectBlocks_canon (bs : List (List Pt)) :
    ∀ (vs : List MVertex) (bi k : ℕ) (p : Pt), corner bs bi k = some p →
      ∃ v, assigned (collectBlocks vs bs).2 bi k = some v ∧
        VertexList.find (collectBlocks vs bs).1 p = some v := by
  induction bs with
  | nil => intro vs bi k p h; simp [corner] at h
  | cons b bs ih =>
    intro vs bi k p h
    match bi with
    | 0 =>
      simp only [corner, List.getElem?_cons_zero, Option.some_bind] at h
      obtain ⟨v, hv1, hv2⟩ := collectPoints_canon b vs k p h
      refine ⟨v, ?_, ?_⟩
      · rw [collectBlocks_cons]
        simpa [assigned] using hv1
      · obtain ⟨e, he⟩ := collectBlocks_extend bs (collectPoints vs b).1
        rw [collectBlocks_cons]
        show VertexList.find (collectBlocks (collectPoints vs b).1 bs).1 p = _
        rw [he]
        exact find_append_of_some hv2
    | bi + 1 =>
      simp only [corner, List.getElem?_cons_succ] at h
      obtain ⟨v, hv1, hv2⟩ := ih (collectPoints vs b).1 bi k p h
      refine ⟨v, ?_, ?_⟩
      · rw [collectBlocks_cons]
        simpa [assigned] using hv1
      · rw [collectBlocks_cons]
        exact hv2

/-- Sequential indexing invariant: vertex number `n` of the list carries
`mesh_index = n`. -/
def Indexed (vs : List MVertex) : Prop :=
  ∀ (n : ℕ) (v : MVertex), vs[n]? = some v → v.mesh_index = n

theorem registerPoint_indexed (vs : List MVertex) (p : Pt) (h : Indexed vs) :
    Indexed (registerPoint vs p).1 := by
  cases hf : VertexList.find vs p with
  | some v => rw [registerPoint_of_find_some hf]; exact h
  | none =>
    rw [registerPoint_of_find_none hf]
    refine fun n v hn => ?_
    rcases lt_trichotomy n vs.length with hlt | heq | hgt
    · rw [show (vs ++ [(⟨p, vs.length⟩ : MVertex)], (⟨p, vs.length⟩ : MVertex)).1
            = vs ++ [(⟨p, vs.length⟩ : MVertex)] from rfl,
        List.getElem?_append, if_pos hlt] at hn
      exact h n v hn
    · subst heq
      rw [List.getElem?_concat_length] at hn
      cases hn
      rfl
    · have hlen : n < vs.length + 1 := by
        have := (List.getElem?_eq_some_iff.mp hn).1
        simpa using this
      omega

theorem collectPoints_indexed (ps : List Pt) :
    ∀ (vs : List MVertex), Indexed vs → Indexed (collectPoints vs ps).1 := by
  induction ps with
  | nil => exact fun vs h => h
  | cons p ps ih =>
    intro vs h
    rw [collectPoints_cons]
    exact ih (registerPoint vs p).1 (registerPoint_indexed vs p h)

theorem collectBlocks_indexed (bs : List (List Pt)) :
    ∀ (vs : List MVertex), Indexed vs → Indexed (collectBlocks vs bs).1 := by
  induction bs with
  | nil => exact fun vs h => h
  | cons b bs ih =>
    intro vs h
    rw [collectBlocks_cons]
    exact ih (collectPoints vs b).1 (collectPoints_indexed b vs h)

/-- A tolerance chain: the unit cube, then the cube with its first corner
nudged by 0.6·tol, then nudged by 1.2·tol.  The two nudged corners lie within
tolerance of each other. -/
def chainBlocks : List (List Pt) :=
  [unitCube, nudgedCube (6 / 10 ^ 8), nudgedCube (12 / 10 ^ 8)]

/-- C4, counterexample to the claim as stated: blocks 1 and 2 of `chainBlocks`
have first corners within the fixed tolerance of each other
(distance 0.6e-7 < 1e-7), yet after `VertexList.collect`'s deduplication pass
they reference different vertices — block 1's corner merges into the origin
vertex while block 2's corner (1.2e-7 from the origin) registers a new one. -/
theorem claim_C4_counterexample :
    corner chainBlocks 1 0 = some ⟨6 / 10 ^ 8, 0, 0⟩ ∧
    corner chainBlocks 2 0 = some ⟨12 / 10 ^ 8, 0, 0⟩ ∧
    close ⟨6 / 10 ^ 8, 0, 0⟩ ⟨12 / 10 ^ 8, 0, 0⟩ = true ∧
    assigned (collectBlocks [] chainBlocks).2 1 0 ≠
      assigned (collectBlocks [] chainBlocks).2 2 0 := by
  refine ⟨by decide!, by decide!, by decide!, by decide!⟩

/-- C4 (amended): after `VertexList.collect`'s deduplication pass over blocks
in insertion order, any two block corner slots holding exactly equal points
reference the same vertex (in general, two corners reference the same vertex
exactly when the first registered vertex within tolerance is the same for
both); every registered vertex carries the next sequential index; and
assembling two unit cubes sharing a face produces exactly 12 vertices, not
16. -/
theorem claim_C4_merge (bs : List (List Pt)) (bi ki bj kj : ℕ) (p : Pt)
    (hbi : corner bs bi ki = some p) (hbj : corner bs bj kj = some p) :
    assigned (collectBlocks [] bs).2 bi ki = assigned (collectBlocks [] bs).2 bj kj ∧
    Indexed (collectBlocks [] bs).1 ∧
    (collectBlocks [] [unitCube, unitCubeShifted]).1.length = 12 := by
  obtain ⟨v1, ha1, hf1⟩ := collectBlocks_canon bs [] bi ki p hbi
  obtain ⟨v2, ha2, hf2⟩ := collectBlocks_canon bs [] bj kj p hbj
  have hv : v1 = v2 := by
    rw [hf1] at hf2
    exact Option.some.inj hf2
  refine ⟨?_, ?_, by decide!⟩
  · rw [ha1, ha2, hv]
  · exact collectBlocks_indexed bs [] (fun n v h => by simp at h)

/-- Witness for C4: instantiating the merge theorem at the two unit cubes and
their shared corner (slot 1 of cube 0, slot 0 of cube 1, both at (1,0,0)). -/
theorem claim_C4_witness :
    assigned (collectBlocks [] [unitCube, unitCubeShifted]).2 0 1 =
      assigned (collectBlocks [] [unitCube, unitCubeShifted]).2 1 0 ∧
    (collectBlocks [] [unitCube, unitCubeShifted]).1.length = 12 :=
  ⟨(claim_C4_merge [unitCube, unitCubeShifted] 0 1 1 0 ⟨1, 0, 0⟩
      (by decide!) (by decide!)).1,
   (claim_C4_merge [unitCube, unitCubeShifted] 0 1 1 0 ⟨1, 0, 0⟩
      (by decide!) (by decide!)).2.2⟩

/-- C3, evaluation at the failing input: one block whose slave patch covers two
adjacent sides (its bottom and front faces share the corners in slots 0 and 1).
The pass creates 8 fresh vertices for only 6 distinct slave-face vertices — 16
vertices total instead of 14 — because after a shared slot is rewritten to its
duplicate, the second visit reads the duplicate's index (9 resp. 8), misses the
memo, and duplicates the duplicate. -/
theorem claim_C3_failing_eval :
    (vertexListCollect [slaveTwoSidesBlock] [("master", "slave")]).vertices.length = 16 ∧
    ((vertexListCollect [slaveTwoSidesBlock] [("master", "slave")]).duplicated_points.map
      (fun pr => pr.1)) = [0, 1, 2, 3, 4, 5, 9, 8] := by
  refine ⟨by decide!, by decide!⟩

/-! ## The autograding chop parameters
(`src/src/classy_blocks/grading/autograding/params.py`) -/

/-- Python's `int()` on a float: truncation toward zero, on exact rationals. -/
def pyInt (q : ℚ) : ℤ := if 0 ≤ q then ⌊q⌋ else -⌊-q⌋

/-- One chop of an axis's cell distribution, with the fields
`HighReChopParams.get_chops` sets (`grading/chop.py` is not under `src/`; the
record mirrors the keyword arguments the source passes to `Chop(...)`). -/
structure Chop where
  length_ratio : ℚ
  count : ℕ
  start_size : Option ℚ
  end_size : Option ℚ
deriving DecidableEq, Repr

/-- The `HighReChopParams` dataclass: grading for high-Reynolds meshes. -/
structure HighReChopParams where
  cell_size : ℚ
deriving Repr

/-- `HighReChopParams.get_count`: `count = int(length / cell_size)`, bumped by
one when odd so that the result is divisible by 2. -/
def HighReChopParams.get_count (p : HighReChopParams) (length : ℚ) : ℤ :=
  let count := pyInt (length / p.cell_size)
  if count % 2 ≠ 0 then count + 1 else count

/-- `HighReChopParams.define_sizes`: start/end cell sizes from the neighbouring
wires; raises on a zero (not-yet-defined) size, collapses to the uniform base
size when the wire is cramped, and falls back to the nominal cell size where a
neighbour is undefined (`None`). -/
def HighReChopParams.define_sizes (p : HighReChopParams) (count : ℕ) (length : ℚ)
    (size_before size_after : Option ℚ) : Except String (ℚ × ℚ) :=
  if size_before = some 0 ∨ size_after = some 0 then
    Except.error "Undefined grading encountered!"
  else
    let cramped := length < p.cell_size * count
    let base_size := length / count
    if cramped then Except.ok (base_size, base_size)
    else Except.ok (size_before.getD p.cell_size, size_after.getD p.cell_size)

/-- `HighReChopParams.get_chops`: stage 0 returns the two uniform half-chops;
stage ≥ 1 resolves sizes via `define_sizes` and builds the two chops of
`fobj(lratio)` at the split point the bounded scalar minimization returned.
`scipy.optimize.minimize_scalar` is external code; its result is the oracle
argument `minimizer_x` (bounded to [0.1, 0.9] by the call). -/
def HighReChopParams.get_chops (p : HighReChopParams) (stage : ℕ) (count : ℕ)
    (length : ℚ) (size_before size_after : Option ℚ) (minimizer_x : ℚ) :
    Except String (List Chop) :=
  let halfcount := count / 2
  let uniform_chops : List Chop :=
    [⟨1 / 2, halfcount, none, none⟩, ⟨1 / 2, halfcount, none, none⟩]
  if stage = 0 then Except.ok uniform_chops
  else
    match p.define_sizes count length size_before size_after with
    | Except.error e => Except.error e
    | Except.ok (sb, sa) =>
      Except.ok [⟨minimizer_x, halfcount, some sb, none⟩,
        ⟨1 - minimizer_x, halfcount, none, some sa⟩]

/-- C7: for positive length and cell size, `HighReChopParams.get_count` returns
an even count, namely `floor(length / cell_size)` rounded up to the next even
number when odd; with `cell_size = 0.1` on a length-10 edge the count is
exactly 100 (hence even and at least 100). -/
theorem claim_C7 (p : HighReChopParams) (length : ℚ)
    (hl : 0 < length) (hc : 0 < p.cell_size) :
    (p.get_count length) % 2 = 0 ∧
    p.get_count length =
      (if ⌊length / p.cell_size⌋ % 2 = 0 then ⌊length / p.cell_size⌋
       else ⌊length / p.cell_size⌋ + 1) ∧
    (p.cell_size = 1 / 10 → length = 10 → p.get_count length = 100) := by
  obtain ⟨c⟩ := p
  have h0 : (0 : ℚ) ≤ length / c := le_of_lt (div_pos hl hc)
  have hpy : pyInt (length / c) = ⌊length / c⌋ := if_pos h0
  have hgc : HighReChopParams.get_count ⟨c⟩ length =
      (if ⌊length / c⌋ % 2 ≠ 0 then ⌊length / c⌋ + 1 else ⌊length / c⌋) := by
    unfold HighReChopParams.get_count
    rw [hpy]
  refine ⟨?_, ?_, ?_⟩
  · rw [hgc]
    rcases Int.emod_two_eq ⌊length / c⌋ with h | h <;> simp [h] <;> omega
  · rw [hgc]
    rcases Int.emod_two_eq ⌊length / c⌋ with h | h <;> simp [h]
  · intro hc10 hl10
    subst hc10
    subst hl10
    rw [hgc]
    norm_num

/-- Witness for C7: `get_count` at `cell_size = 0.1`, `length = 10`. -/
theorem claim_C7_witness :
    HighReChopParams.get_count ⟨1 / 10⟩ 10 % 2 = 0 ∧
    HighReChopParams.get_count ⟨1 / 10⟩ 10 = 100 :=
  ⟨(claim_C7 ⟨1 / 10⟩ 10 (by norm_num) (by norm_num)).1,
   (claim_C7 ⟨1 / 10⟩ 10 (by norm_num) (by norm_num)).2.2 rfl rfl⟩

/-- C8: for every even count ≥ 2, both the uniform pass (stage 0) and the
optimized pass (stage 1, with any split point the scalar minimizer returns in
[0.1, 0.9] and neighbour sizes that are not the raising value 0),
`HighReChopParams.get_chops` returns exactly two chops whose length ratios sum
to 1 and whose counts sum to the full count. -/
theorem claim_C8 (p : HighReChopParams) (stage count : ℕ) (length : ℚ)
    (size_before size_after : Option ℚ) (x : ℚ)
    (hstage : stage ≤ 1) (hcount : 2 ≤ count) (heven : count % 2 = 0)
    (hsb : size_before ≠ some 0) (hsa : size_after ≠ some 0)
    (hx1 : 1 / 10 ≤ x) (hx2 : x ≤ 9 / 10) :
    ∃ c1 c2 : Chop,
      p.get_chops stage count length size_before size_after x = Except.ok [c1, c2] ∧
      c1.length_ratio + c2.length_ratio = 1 ∧
      c1.count + c2.count = count := by
  have hhalf : count / 2 + count / 2 = count := by omega
  match stage, hstage with
  | 0, _ =>
    exact ⟨⟨1 / 2, count / 2, none, none⟩, ⟨1 / 2, count / 2, none, none⟩,
      rfl, by norm_num, hhalf⟩
  | 1, _ =>
    have hds : ∃ spair, p.define_sizes count length size_before size_after =
        Except.ok spair := by
      unfold HighReChopParams.define_sizes
      rw [if_neg (by simp [hsb, hsa])]
      by_cases hcr : length < p.cell_size * count
      · exact ⟨_, by rw [if_pos hcr]⟩
      · exact ⟨_, by rw [if_neg hcr]⟩
    obtain ⟨⟨sb, sa⟩, hds⟩ := hds
    refine ⟨⟨x, count / 2, some sb, none⟩, ⟨1 - x, count / 2, none, some sa⟩,
      ?_, by ring, hhalf⟩
    unfold HighReChopParams.get_chops
    rw [if_neg (by norm_num), hds]

/-- Witness for C8: the optimized pass at `cell_size = 0.1`, count 100,
length 10, undefined neighbour sizes, split point 1/2. -/
theorem claim_C8_witness :
    ∃ c1 c2 : Chop,
      HighReChopParams.get_chops ⟨1 / 10⟩ 1 100 10 none none (1 / 2) =
        Except.ok [c1, c2] ∧
      c1.length_ratio + c2.length_ratio = 1 ∧
      c1.count + c2.count = 100 :=
  claim_C8 ⟨1 / 10⟩ 1 100 10 none none (1 / 2) (by norm_num) (by norm_num)
    (by norm_num) (by simp) (by simp) (by norm_num) (by norm_num)

/-! ## The iteration driver (`src/src/classy_blocks/modify/optimizer.py`) -/

/-- Modelled from the spec: `util.constants.VBIG` (not under `src/`), the huge
sentinel used as quality before any value is recorded. -/
def VBIG : ℚ := 10 ^ 12

/-- `IterationData`: one iteration's relaxation factor and its quality before
and after (`final_quality` is initialized to `VBIG`). -/
structure IterationData where
  relaxation : ℚ
  initial_quality : ℚ
  final_quality : ℚ
deriving DecidableEq, Repr

/-- `IterationData.improvement`: quality before minus quality after. -/
def IterationData.improvement (it : IterationData) : ℚ :=
  it.initial_quality - it.final_quality

/-- `IterationDriver`: iteration bookkeeping. -/
structure IterationDriver where
  max_iterations : ℕ
  relaxed_iterations : ℕ
  tolerance : ℚ
  iterations : List IterationData
deriving DecidableEq, Repr

/-- `IterationDriver.INITIAL_RELAXATION`. -/
def INITIAL_RELAXATION : ℚ := 1 / 2

/-- `IterationDriver.next_relaxation`: ramps linearly from 0.5 toward 1 over
the first `relaxed_iterations` iterations, capped at 1. -/
def IterationDriver.next_relaxation (d : IterationDriver) : ℚ :=
  min 1 (INITIAL_RELAXATION +
    (1 - INITIAL_RELAXATION) / (d.relaxed_iterations : ℚ) * (d.iterations.length : ℚ))

/-- `IterationDriver.begin_iteration`: append a fresh `IterationData` at the
current quality. -/
def IterationDriver.begin_iteration (d : IterationDriver) (quality : ℚ) :
    IterationDriver :=
  { d with iterations := d.iterations ++ [⟨d.next_relaxation, quality, VBIG⟩] }

/-- `IterationDriver.end_iteration`: set the last iteration's final quality. -/
def IterationDriver.end_iteration (d : IterationDriver) (quality : ℚ) :
    IterationDriver :=
  { d with iterations := d.iterations.dropLast ++
      [{ d.iterations.getLastD ⟨0, 0, 0⟩ with final_quality := quality }] }

/-- `IterationDriver.initial_improvement`: the first iteration's improvement,
or `VBIG` before any iteration exists. -/
def IterationDriver.initial_improvement (d : IterationDriver) : ℚ :=
  match d.iterations with
  | [] => VBIG
  | it :: _ => it.improvement

/-- `IterationDriver.last_improvement`: the last iteration's improvement once
two exist, else the initial improvement. -/
def IterationDriver.last_improvement (d : IterationDriver) : ℚ :=
  if d.iterations.length < 2 then d.initial_improvement
  else (d.iterations.getLastD ⟨0, 0, 0⟩).improvement

/-- `IterationDriver.converged`: `False` below two iterations, `True` at the
iteration budget, else the source's test
`last_improvement / initial_improvement < tolerance * initial_improvement`. -/
def IterationDriver.converged (d : IterationDriver) : Bool :=
  if d.iterations.length ≤ 1 then false
  else if d.max_iterations ≤ d.iterations.length then true
  else decide (d.last_improvement / d.initial_improvement <
    d.tolerance * d.initial_improvement)

/-- A driver after two iterations of a twenty-iteration budget with tolerance
0.1: improvements 1 (first) and 1/20 (last). -/
def driverC2 : IterationDriver :=
  ⟨20, 2, 1 / 10, [⟨1 / 2, 10, 9⟩, ⟨3 / 4, 9, 179 / 20⟩]⟩

/-- C2, counterexample to the claim as stated: `driverC2` has completed two of
twenty iterations and reports `converged = true` (because 1/20 < 0.1·1, the
source's `tolerance * initial_improvement` bound), yet the claimed bound
`tolerance² = 1/100` is not satisfied by the improvement ratio 1/20. -/
theorem claim_C2_counterexample :
    2 ≤ driverC2.iterations.length ∧
    driverC2.iterations.length < driverC2.max_iterations ∧
    driverC2.initial_improvement ≠ 0 ∧
    driverC2.converged = true ∧
    ¬(driverC2.last_improvement / driverC2.initial_improvement <
      driverC2.tolerance ^ 2) := by
  refine ⟨by decide!, by decide!, by decide!, by decide!, by decide!⟩

/-- C2 (amended): between two completed iterations and the iteration budget,
`converged` is true exactly when `last_improvement / initial_improvement <
tolerance * initial_improvement` — the threshold is the tolerance times the
first iteration's improvement, not tolerance squared.  (The division requires
a non-zero first improvement; in Python a zero value raises
`ZeroDivisionError` there.) -/
theorem claim_C2_amended (d : IterationDriver)
    (h2 : 2 ≤ d.iterations.length)
    (hmax : d.iterations.length < d.max_iterations)
    (hnz : d.initial_improvement ≠ 0) :
    d.converged = true ↔
      d.last_improvement / d.initial_improvement <
        d.tolerance * d.initial_improvement := by
  unfold IterationDriver.converged
  rw [if_neg (by omega), if_neg (by omega)]
  simp

/-- Witness for C2: the amended convergence test instantiated at `driverC2`. -/
theorem claim_C2_witness :
    driverC2.converged = true ↔
      driverC2.last_improvement / driverC2.initial_improvement <
        driverC2.tolerance * driverC2.initial_improvement :=
  claim_C2_amended driverC2 (by decide!) (by decide!) (by decide!)

/-! ## The optimizer state machine
(`src/src/classy_blocks/modify/optimizer.py`) -/

/-- The optimizer's exceptions: `NoJunctionError` and `NoClampError`. -/
inductive OptErr
  | noJunction
  | noClamp
deriving DecidableEq, Repr

/-- Linear interpolation between points:
`current * (1 - relaxation) + target * relaxation`. -/
def Pt.lerp (cur target : Pt) (r : ℚ) : Pt :=
  ⟨cur.x * (1 - r) + target.x * r,
   cur.y * (1 - r) + target.y * r,
   cur.z * (1 - r) + target.z * r⟩

/-- Modelled from the spec: a clamp as the optimizer uses it
(`modify/clamps/clamp.py` is not under `src/`): the bound vertex, identified by
its integer index (`Vertex.__eq__` compares indices), the position function
from the parameter vector, and the linked flag that selects the optimization
objective. -/
structure OClamp where
  vertex : ℕ
  posFn : List ℚ → Pt
  is_linked : Bool

instance : Inhabited OClamp := ⟨⟨0, fun _ => ⟨0, 0, 0⟩, false⟩⟩

/-- The mutable state the optimizer acts on: the position of each vertex and
the parameter vector of each clamp (clamps addressed by their index in
`Optimizer.clamps`). -/
structure OptState where
  pos : ℕ → Pt
  params : ℕ → List ℚ

/-- The optimizer's fixed context: the registered clamps, the grid's junction
vertices, the ordering `get_ordered_junctions()` returns, the quality
aggregates, and the minimization oracle.  Modelled from the spec:
`Grid.quality` and `Junction.quality` (`grid.py`, `junction.py` are not under
`src/`) are deterministic scalar aggregates of the vertex positions, kept
abstract; `scipy.optimize.minimize` is external code whose only state effect is
that the clamp ends at the last parameter vector the objective was evaluated
at, so it is the oracle `minimizer`, given the objective and the starting
parameters. -/
structure OptCtx where
  clamps : List OClamp
  junctions : List ℕ
  ordered : List ℕ
  quality : (ℕ → Pt) → ℚ
  jquality : ℕ → (ℕ → Pt) → ℚ
  minimizer : (List ℚ → ℚ) → List ℚ → List ℚ

/-- Modelled from the spec: `ClampBase.update_params(params, relaxation)` moves
the clamp's vertex to `current*(1-relaxation) + position(params)*relaxation`
and stores the new parameter vector. -/
def update_params (c : OClamp) (i : ℕ) (s : OptState) (new : List ℚ) (r : ℚ) :
    OptState :=
  { pos := fun v => if v = c.vertex then Pt.lerp (s.pos c.vertex) (c.posFn new) r
      else s.pos v
    params := fun j => if j = i then new else s.params j }

/-- `Optimizer._get_junction`: scan the grid's junctions for one whose vertex
equals the clamp's vertex; `NoJunctionError` when absent. -/
def get_junction (ctx : OptCtx) (cv : ℕ) : Except OptErr ℕ :=
  match ctx.junctions.find? (fun j => j == cv) with
  | some j => Except.ok j
  | none => Except.error OptErr.noJunction

/-- The scan of `Optimizer._get_clamp` over the clamp list, carrying the list
index so the state can address the clamp's parameters. -/
def get_clamp_aux : List OClamp → ℕ → ℕ → Except OptErr (OClamp × ℕ)
  | [], _, _ => Except.error OptErr.noClamp
  | c :: rest, jv, k =>
    if c.vertex = jv then Except.ok (c, k) else get_clamp_aux rest jv (k + 1)

/-- `Optimizer._get_clamp`: the first registered clamp bound to the junction's
vertex; `NoClampError` when absent. -/
def get_clamp (ctx : OptCtx) (jv : ℕ) : Except OptErr (OClamp × ℕ) :=
  get_clamp_aux ctx.clamps jv 0

/-- `fquality(params)` inside `optimize_clamp`: move the vertex to the
candidate parameters (relaxation 1) and return the chosen objective — global
grid quality for a linked clamp, the junction's local quality otherwise. -/
def fquality (ctx : OptCtx) (c : OClamp) (i : ℕ) (jv : ℕ) (s : OptState)
    (params : List ℚ) : ℚ :=
  let s1 := update_params c i s params 1
  if c.is_linked then ctx.quality s1.pos else ctx.jquality jv s1.pos

/-- `Optimizer.optimize_clamp`: record the grid quality and the clamp's
parameters, look up the junction, run the bounded local minimization (each
objective evaluation overwrites the vertex at relaxation 1, so the net state
effect is `update_params` at the last evaluated parameters, the oracle's
output), then roll back to the initial parameters when the grid quality got
strictly worse — reported, not raised — else commit the move damped by the
iteration's relaxation.  Returns the quality ratio the source reports. -/
def optimize_clamp (ctx : OptCtx) (c : OClamp) (i : ℕ) (relaxation : ℚ)
    (s : OptState) : Except OptErr (OptState × ℚ) :=
  let initial_grid_quality := ctx.quality s.pos
  let initial_params := s.params i
  match get_junction ctx c.vertex with
  | Except.error e => Except.error e
  | Except.ok jv =>
    let pStar := ctx.minimizer (fquality ctx c i jv s) (s.params i)
    let s1 := update_params c i s pStar 1
    let current_grid_quality := ctx.quality s1.pos
    if initial_grid_quality < current_grid_quality then
      Except.ok (update_params c i s1 initial_params 1, initial_grid_quality / 1)
    else
      Except.ok (update_params c i s1 (s1.params i) relaxation,
        initial_grid_quality / current_grid_quality)

/-- One junction of `Optimizer.optimize_iteration`'s loop: look up a clamp and
optimize it; `NoClampError` is caught and skips the junction. -/
def optimize_junction (ctx : OptCtx) (relaxation : ℚ) (s : OptState) (jv : ℕ) :
    Except OptErr OptState :=
  match get_clamp ctx jv with
  | Except.error OptErr.noClamp => Except.ok s
  | Except.error e => Except.error e
  | Except.ok (c, i) =>
    match optimize_clamp ctx c i relaxation s with
    | Except.ok (s1, _) => Except.ok s1
    | Except.error OptErr.noClamp => Except.ok s
    | Except.error e => Except.error e

/-- The loop of `Optimizer.optimize_iteration` over an ordered junction list. -/
def optimize_junctions (ctx : OptCtx) (relaxation : ℚ) :
    OptState → List ℕ → Except OptErr OptState
  | s, [] => Except.ok s
  | s, jv :: rest =>
    match optimize_junction ctx relaxation s jv with
    | Except.ok s1 => optimize_junctions ctx relaxation s1 rest
    | Except.error e => Except.error e

/-- `Optimizer.optimize_iteration`: the per-junction loop in the grid's
descending-influence order. -/
def optimize_iteration (ctx : OptCtx) (relaxation : ℚ) (s : OptState) :
    Except OptErr OptState :=
  optimize_junctions ctx relaxation s ctx.ordered

theorem converged_length {d : IterationDriver} (h : d.converged = false) :
    d.iterations.length < max 2 d.max_iterations := by
  unfold IterationDriver.converged at h
  by_cases h1 : d.iterations.length ≤ 1
  · omega
  · rw [if_neg h1] at h
    by_cases h2 : d.max_iterations ≤ d.iterations.length
    · rw [if_pos h2] at h
      simp at h
    · omega

theorem end_iteration_length (d : IterationDriver) (q : ℚ)
    (h : d.iterations ≠ []) :
    (d.end_iteration q).iterations.length = d.iterations.length := by
  have : d.iterations.length ≠ 0 := fun hc => h (List.length_eq_zero.mp hc)
  simp [IterationDriver.end_iteration, List.length_dropLast]
  omega

theorem begin_iteration_length (d : IterationDriver) (q : ℚ) :
    (d.begin_iteration q).iterations.length = d.iterations.length + 1 := by
  simp [IterationDriver.begin_iteration]

/-- `Optimizer.optimize`'s while loop: begin an iteration at the current grid
quality, run the per-junction pass with the new iteration's relaxation, end
the iteration at the resulting grid quality, until the driver converges. -/
theorem Pt.lerp_one (a b : Pt) : Pt.lerp a b 1 = b := by
  cases b
  simp [Pt.lerp]

theorem Pt.lerp_self (a : Pt) (r : ℚ) : Pt.lerp a a r = a := by
  cases a
  simp only [Pt.lerp, Pt.mk.injEq]
  refine ⟨by ring, by ring, by ring⟩

theorem update_params_pos (c : OClamp) (i : ℕ) (s : OptState) (new : List ℚ)
    (r : ℚ) (v : ℕ) :
    (update_params c i s new r).pos v =
      if v = c.vertex then Pt.lerp (s.pos c.vertex) (c.posFn new) r
      else s.pos v := rfl

theorem update_params_params (c : OClamp) (i : ℕ) (s : OptState) (new : List ℚ)
    (r : ℚ) (j : ℕ) :
    (update_params c i s new r).params j = if j = i then new else s.params j := rfl

theorem get_junction_mem {ctx : OptCtx} {cv : ℕ} (h : cv ∈ ctx.junctions) :
    get_junction ctx cv = Except.ok cv := by
  unfold get_junction
  cases hf : ctx.junctions.find? (fun j => j == cv) with
  | none =>
    rw [List.find?_eq_none] at hf
    exact absurd (by simp : (fun j => j == cv) cv = true) (hf cv h)
  | some j =>
    have hj := List.find?_some hf
    simp only [beq_iff_eq] at hj
    subst hj
    rfl

theorem get_clamp_aux_spec (cs : List OClamp) :
    ∀ (jv k : ℕ) (c : OClamp) (i : ℕ),
      get_clamp_aux cs jv k = Except.ok (c, i) →
        c.vertex = jv ∧ k ≤ i ∧ cs[i - k]? = some c := by
  induction cs with
  | nil => intro jv k c i h; simp [get_clamp_aux] at h
  | cons c0 rest ih =>
    intro jv k c i h
    unfold get_clamp_aux at h
    by_cases hv : c0.vertex = jv
    · rw [if_pos hv] at h
      simp only [Except.ok.injEq, Prod.mk.injEq] at h
      obtain ⟨rfl, rfl⟩ := h
      exact ⟨hv, le_refl k, by simp⟩
    · rw [if_neg hv] at h
      obtain ⟨h1, h2, h3⟩ := ih jv (k + 1) c i h
      refine ⟨h1, by omega, ?_⟩
      have hik : i - k = (i - (k + 1)) + 1 := by omega
      rw [hik]
      simpa using h3

theorem get_clamp_spec {ctx : OptCtx} {jv : ℕ} {c : OClamp} {i : ℕ}
    (h : get_clamp ctx jv = Except.ok (c, i)) :
    c.vertex = jv ∧ ctx.clamps[i]? = some c := by
  obtain ⟨h1, _, h3⟩ := get_clamp_aux_spec ctx.clamps jv 0 c i h
  exact ⟨h1, by simpa using h3⟩

theorem get_clamp_aux_err (cs : List OClamp) :
    ∀ (jv k : ℕ) (e : OptErr), get_clamp_aux cs jv k = Except.error e →
      e = OptErr.noClamp := by
  induction cs with
  | nil =>
    intro jv k e h
    simp only [get_clamp_aux, Except.error.injEq] at h
    exact h.symm
  | cons c0 rest ih =>
    intro jv k e h
    unfold get_clamp_aux at h
    by_cases hv : c0.vertex = jv
    · rw [if_pos hv] at h
      cases h
    · rw [if_neg hv] at h
      exact ih jv (k + 1) e h

/-- One step of `optimize_clamp` with the junction lookup resolved. -/
theorem optimize_clamp_eq (ctx : OptCtx) (c : OClamp) (i : ℕ) (r : ℚ)
    (s : OptState) (hjv : c.vertex ∈ ctx.junctions) :
    optimize_clamp ctx c i r s =
      (let pStar := ctx.minimizer (fquality ctx c i c.vertex s) (s.params i)
       let s1 := update_params c i s pStar 1
       if ctx.quality s.pos < ctx.quality s1.pos then
         Except.ok (update_params c i s1 (s.params i) 1, ctx.quality s.pos / 1)
       else
         Except.ok (update_params c i s1 (s1.params i) r,
           ctx.quality s.pos / ctx.quality s1.pos)) := by
  unfold optimize_clamp
  rw [get_junction_mem hjv]

/-- `optimize_clamp` never raises when the clamp's junction exists, and it
touches only the clamp's vertex and parameter slot. -/
theorem optimize_clamp_ok (ctx : OptCtx) (c : OClamp) (i : ℕ) (r : ℚ)
    (s : OptState) (hjv : c.vertex ∈ ctx.junctions) :
    ∃ s1 q, optimize_clamp ctx c i r s = Except.ok (s1, q) ∧
      (∀ v, v ≠ c.vertex → s1.pos v = s.pos v) ∧
      (∀ j, j ≠ i → s1.params j = s.params j) := by
  rw [optimize_clamp_eq ctx c i r s hjv]
  set pStar := ctx.minimizer (fquality ctx c i c.vertex s) (s.params i) with hp
  by_cases hq : ctx.quality s.pos <
      ctx.quality (update_params c i s pStar 1).pos
  · refine ⟨_, _, by rw [if_pos hq], ?_, ?_⟩
    · intro v hv
      rw [update_params_pos, if_neg hv, update_params_pos, if_neg hv]
    · intro j hj
      rw [update_params_params, if_neg hj, update_params_params, if_neg hj]
  · refine ⟨_, _, by rw [if_neg hq], ?_, ?_⟩
    · intro v hv
      rw [update_params_pos, if_neg hv, update_params_pos, if_neg hv]
    · intro j hj
      rw [update_params_params, if_neg hj, update_params_params, if_neg hj]

/-- The per-clamp invariant the clamps' construction establishes (modelled from
the spec: a clamp's vertex sits at the position its current parameters map
to): each clamp's vertex position equals its position function at its current
parameter vector. -/
def ClampInv (ctx : OptCtx) (s : OptState) : Prop :=
  ∀ (i : ℕ) (c : OClamp), ctx.clamps[i]? = some c →
    s.pos c.vertex = c.posFn (s.params i)

/-- Distinct clamps are bound to distinct vertices (each clamp binds exactly
one vertex). -/
def DistinctClampVertices (ctx : OptCtx) : Prop :=
  ∀ (i j : ℕ) (ci cj : OClamp), ctx.clamps[i]? = some ci →
    ctx.clamps[j]? = some cj → i ≠ j → ci.vertex ≠ cj.vertex

/-- The per-step guarantee of `optimize_clamp`: under the construction
invariant, the grid quality never increases (rollback restores the pre-move
state exactly; a commit keeps the measured not-worse quality because the
damped update starts from the already-moved vertex), and the invariant is
preserved. -/
theorem optimize_clamp_mono (ctx : OptCtx) (c : OClamp) (i : ℕ) (r : ℚ)
    (s : OptState) (hc : ctx.clamps[i]? = some c)
    (hjv : c.vertex ∈ ctx.junctions)
    (hinv : ClampInv ctx s) (hdist : DistinctClampVertices ctx) :
    ∃ s1 q, optimize_clamp ctx c i r s = Except.ok (s1, q) ∧
      ctx.quality s1.pos ≤ ctx.quality s.pos ∧ ClampInv ctx s1 ∧
      (∀ v, v ≠ c.vertex → s1.pos v = s.pos v) ∧
      (∀ j, j ≠ i → s1.params j = s.params j) := by
  rw [optimize_clamp_eq ctx c i r s hjv]
  set pStar := ctx.minimizer (fquality ctx c i c.vertex s) (s.params i) with hp
  set s1 := update_params c i s pStar 1 with hs1
  by_cases hq : ctx.quality s.pos < ctx.quality s1.pos
  · -- rollback: the state is restored exactly
    have hpos : (update_params c i s1 (s.params i) 1).pos = s.pos := by
      funext v
      by_cases hv : v = c.vertex
      · subst hv
        rw [update_params_pos, if_pos rfl, Pt.lerp_one]
        exact (hinv i c hc).symm
      · rw [update_params_pos, if_neg hv, hs1, update_params_pos, if_neg hv]
    have hparams : (update_params c i s1 (s.params i) 1).params = s.params := by
      funext j
      by_cases hj : j = i
      · subst hj
        rw [update_params_params, if_pos rfl]
      · rw [update_params_params, if_neg hj, hs1, update_params_params, if_neg hj]
    refine ⟨_, _, by rw [if_pos hq], ?_, ?_, ?_, ?_⟩
    · rw [hpos]
    · intro j cj hcj
      rw [hpos, hparams]
      exact hinv j cj hcj
    · intro v _
      rw [hpos]
    · intro j _
      rw [hparams]
  · -- commit: the damped update does not move the already-moved vertex
    have hs1pos : s1.pos c.vertex = c.posFn pStar := by
      rw [hs1, update_params_pos, if_pos rfl, Pt.lerp_one]
    have hs1par : s1.params i = pStar := by
      rw [hs1, update_params_params, if_pos rfl]
    have hpos : (update_params c i s1 (s1.params i) r).pos = s1.pos := by
      funext v
      by_cases hv : v = c.vertex
      · subst hv
        rw [update_params_pos, if_pos rfl, hs1par, hs1pos, Pt.lerp_self]
      · rw [update_params_pos, if_neg hv]
    refine ⟨_, _, by rw [if_neg hq], ?_, ?_, ?_, ?_⟩
    · rw [hpos]
      exact le_of_not_lt hq
    · intro j cj hcj
      by_cases hj : j = i
      · subst hj
        have hceq : cj = c := by
          rw [hc] at hcj
          exact (Option.some.inj hcj).symm
        subst hceq
        rw [hpos, hs1pos, update_params_params, if_pos rfl, hs1par]
      · have hvne : cj.vertex ≠ c.vertex := hdist j i cj c hcj hc hj
        rw [hpos, show s1.pos cj.vertex = s.pos cj.vertex from by
            rw [hs1, update_params_pos, if_neg hvne],
          show (update_params c i s1 (s1.params i) r).params j = s.params j from by
            rw [update_params_params, if_neg hj, hs1, update_params_params, if_neg hj]]
        exact hinv j cj hcj
    · intro v hv
      rw [hpos, hs1, update_params_pos, if_neg hv]
    · intro j hj
      rw [update_params_params, if_neg hj, show s1.params j = s.params j from by
        rw [hs1, update_params_params, if_neg hj]]

theorem optimize_junction_of_get (ctx : OptCtx) (r : ℚ) (s : OptState) (jv : ℕ)
    (c : OClamp) (i : ℕ) (hg : get_clamp ctx jv = Except.ok (c, i)) :
    optimize_junction ctx r s jv =
      match optimize_clamp ctx c i r s with
      | Except.ok (s1, _) => Except.ok s1
      | Except.error OptErr.noClamp => Except.ok s
      | Except.error e => Except.error e := by
  unfold optimize_junction
  rw [hg]

theorem optimize_junction_of_get_err (ctx : OptCtx) (r : ℚ) (s : OptState)
    (jv : ℕ) (hg : get_clamp ctx jv = Except.error OptErr.noClamp) :
    optimize_junction ctx r s jv = Except.ok s := by
  unfold optimize_junction
  rw [hg]

/-- `optimize_junction` never raises when the junction is the grid's, and it
touches only the selected clamp's vertex and parameter slot. -/
theorem optimize_junction_ok (ctx : OptCtx) (r : ℚ) (s : OptState) (jv : ℕ)
    (hjv : jv ∈ ctx.junctions) :
    ∃ s1, optimize_junction ctx r s jv = Except.ok s1 ∧
      (∀ v, v ≠ jv → s1.pos v = s.pos v) ∧
      (∀ v, (∀ (k : ℕ) (ck : OClamp), ctx.clamps[k]? = some ck → ck.vertex ≠ v) →
        s1.pos v = s.pos v) ∧
      (∀ j, (∀ cj : OClamp, ctx.clamps[j]? = some cj → cj.vertex ≠ jv) →
        s1.params j = s.params j) := by
  cases hg : get_clamp ctx jv with
  | error e =>
    have he : e = OptErr.noClamp := get_clamp_aux_err ctx.clamps jv 0 e hg
    subst he
    rw [optimize_junction_of_get_err ctx r s jv hg]
    exact ⟨s, rfl, fun v _ => rfl, fun v _ => rfl, fun j _ => rfl⟩
  | ok ci =>
    obtain ⟨c, i⟩ := ci
    obtain ⟨hcv, hcs⟩ := get_clamp_spec hg
    obtain ⟨s1, q, heq, hfpos, hfpar⟩ :=
      optimize_clamp_ok ctx c i r s (hcv ▸ hjv)
    rw [optimize_junction_of_get ctx r s jv c i hg, heq]
    refine ⟨s1, rfl, ?_, ?_, ?_⟩
    · intro v hv
      exact hfpos v (fun hc => hv (hc ▸ hcv.symm ▸ rfl))
    · intro v hnone
      refine hfpos v (fun hc => ?_)
      exact hnone i c hcs (hc ▸ rfl)
    · intro j hj
      refine hfpar j (fun hji => ?_)
      subst hji
      exact hj c hcs hcv

/-- The per-step guarantee of `optimize_junction` under the construction
invariant: the quality never increases and the invariant is preserved. -/
theorem optimize_junction_mono (ctx : OptCtx) (r : ℚ) (s : OptState) (jv : ℕ)
    (hjv : jv ∈ ctx.junctions)
    (hinv : ClampInv ctx s) (hdist : DistinctClampVertices ctx) :
    ∃ s1, optimize_junction ctx r s jv = Except.ok s1 ∧
      ctx.quality s1.pos ≤ ctx.quality s.pos ∧ ClampInv ctx s1 := by
  cases hg : get_clamp ctx jv with
  | error e =>
    have he : e = OptErr.noClamp := get_clamp_aux_err ctx.clamps jv 0 e hg
    subst he
    rw [optimize_junction_of_get_err ctx r s jv hg]
    exact ⟨s, rfl, le_refl _, hinv⟩
  | ok ci =>
    obtain ⟨c, i⟩ := ci
    obtain ⟨hcv, hcs⟩ := get_clamp_spec hg
    obtain ⟨s1, q, heq, hle, hinv1, _, _⟩ :=
      optimize_clamp_mono ctx c i r s hcs (hcv ▸ hjv) hinv hdist
    rw [optimize_junction_of_get ctx r s jv c i hg, heq]
    exact ⟨s1, rfl, hle, hinv1⟩

/-- The per-junction loop never raises when every ordered junction is the
grid's, and clamps without a junction (and vertices without a clamp) are left
untouched. -/
theorem optimize_junctions_ok (ctx : OptCtx) (r : ℚ) :
    ∀ (l : List ℕ) (s : OptState), (∀ jv ∈ l, jv ∈ ctx.junctions) →
      ∃ s1, optimize_junctions ctx r s l = Except.ok s1 ∧
        (∀ (j : ℕ) (cj : OClamp), ctx.clamps[j]? = some cj →
          cj.vertex ∉ ctx.junctions →
          s1.params j = s.params j ∧ s1.pos cj.vertex = s.pos cj.vertex) ∧
        (∀ v, (∀ (k : ℕ) (ck : OClamp), ctx.clamps[k]? = some ck →
          ck.vertex ≠ v) → s1.pos v = s.pos v) := by
  intro l
  induction l with
  | nil =>
    intro s _
    exact ⟨s, rfl, fun j cj _ _ => ⟨rfl, rfl⟩, fun v _ => rfl⟩
  | cons jv rest ih =>
    intro s hmem
    have hjv : jv ∈ ctx.junctions := hmem jv (List.mem_cons_self jv rest)
    obtain ⟨s1, heq1, hfpos1, hfnone1, hfpar1⟩ :=
      optimize_junction_ok ctx r s jv hjv
    obtain ⟨s2, heq2, hframe2, hnone2⟩ :=
      ih s1 (fun j hj => hmem j (List.mem_cons_of_mem jv hj))
    refine ⟨s2, ?_, ?_, ?_⟩
    · unfold optimize_junctions
      simp only [heq1]
      exact heq2
    · intro j cj hcj hout
      obtain ⟨hp2, hq2⟩ := hframe2 j cj hcj hout
      have hvne : cj.vertex ≠ jv := fun hc => hout (hc ▸ hjv)
      refine ⟨?_, ?_⟩
      · rw [hp2]
        exact hfpar1 j (fun c hc => by
          rw [hcj] at hc
          exact (Option.some.inj hc) ▸ hvne)
      · rw [hq2]
        exact hfpos1 cj.vertex hvne
    · intro v hnone
      rw [hnone2 v hnone]
      exact hfnone1 v hnone

/-- The per-junction loop never increases the grid quality and preserves the
construction invariant. -/
theorem optimize_junctions_mono (ctx : OptCtx) (r : ℚ) :
    ∀ (l : List ℕ) (s : OptState), (∀ jv ∈ l, jv ∈ ctx.junctions) →
      ClampInv ctx s → DistinctClampVertices ctx →
      ∃ s1, optimize_junctions ctx r s l = Except.ok s1 ∧
        ctx.quality s1.pos ≤ ctx.quality s.pos ∧ ClampInv ctx s1 := by
  intro l
  induction l with
  | nil =>
    intro s _ hinv _
    exact ⟨s, rfl, le_refl _, hinv⟩
  | cons jv rest ih =>
    intro s hmem hinv hdist
    have hjv : jv ∈ ctx.junctions := hmem jv (List.mem_cons_self jv rest)
    obtain ⟨s1, heq1, hle1, hinv1⟩ :=
      optimize_junction_mono ctx r s jv hjv hinv hdist
    obtain ⟨s2, heq2, hle2, hinv2⟩ :=
      ih s1 (fun j hj => hmem j (List.mem_cons_of_mem jv hj)) hinv1 hdist
    refine ⟨s2, ?_, le_trans hle2 hle1, hinv2⟩
    unfold optimize_junctions
    simp only [heq1]
    exact heq2

def optimize_run (ctx : OptCtx) (d : IterationDriver) (s : OptState) :
    Except OptErr (IterationDriver × OptState) :=
  if h : d.converged then Except.ok (d, s)
  else
    let d1 := d.begin_iteration (ctx.quality s.pos)
    match optimize_iteration ctx d.next_relaxation s with
    | Except.error e => Except.error e
    | Except.ok s1 => optimize_run ctx (d1.end_iteration (ctx.quality s1.pos)) s1
termination_by max 2 d.max_iterations - d.iterations.length
decreasing_by
  have hlt : d.iterations.length < max 2 d.max_iterations :=
    converged_length (by simpa using h)
  have hne : (d.begin_iteration (ctx.quality s.pos)).iterations ≠ [] := by
    simp [IterationDriver.begin_iteration]
  have hlen : ((d.begin_iteration (ctx.quality s.pos)).end_iteration
      (ctx.quality s1.pos)).iterations.length = d.iterations.length + 1 := by
    rw [end_iteration_length _ _ hne, begin_iteration_length]
  simp only [IterationDriver.end_iteration, IterationDriver.begin_iteration] at hlen ⊢
  omega

theorem converged_min_two {d : IterationDriver} (h : d.converged = true) :
    2 ≤ d.iterations.length := by
  unfold IterationDriver.converged at h
  by_cases h1 : d.iterations.length ≤ 1
  · rw [if_pos h1] at h
    cases h
  · omega

/-- The optimize loop always returns with a converged driver, within the
iteration budget `max 2 max_iterations`. -/
theorem optimize_run_ok (ctx : OptCtx)
    (hcov : ∀ jv ∈ ctx.ordered, jv ∈ ctx.junctions) :
    ∀ (d : IterationDriver) (s : OptState),
      ∃ d1 s1, optimize_run ctx d s = Except.ok (d1, s1) ∧
        d1.converged = true ∧ d1.max_iterations = d.max_iterations ∧
        (d.iterations.length ≤ max 2 d.max_iterations →
          d1.iterations.length ≤ max 2 d.max_iterations) := by
  intro d s
  induction d, s using optimize_run.induct ctx with
  | case1 d s h =>
    exact ⟨d, s, by rw [optimize_run.eq_def, dif_pos h], h, rfl, fun hle => hle⟩
  | case2 d s h e herr =>
    obtain ⟨s1, hok, _, _⟩ :=
      optimize_junctions_ok ctx d.next_relaxation ctx.ordered s hcov
    unfold optimize_iteration at herr
    rw [hok] at herr
    cases herr
  | case3 d s h d1 s1 hok ih =>
    obtain ⟨d2, s2, hrun, hconv, hmax, hlen⟩ := ih
    have hstep : optimize_run ctx d s = optimize_run ctx
        ((d.begin_iteration (ctx.quality s.pos)).end_iteration
          (ctx.quality s1.pos)) s1 := by
      rw [optimize_run.eq_def, dif_neg h]
      simp only [hok]
    have hstepmax : ((d.begin_iteration (ctx.quality s.pos)).end_iteration
        (ctx.quality s1.pos)).max_iterations = d.max_iterations := rfl
    refine ⟨d2, s2, hstep ▸ hrun, hconv, by rw [hmax, hstepmax], ?_⟩
    intro hle
    have hlt : d.iterations.length < max 2 d.max_iterations :=
      converged_length (by simpa using h)
    have hne : (d.begin_iteration (ctx.quality s.pos)).iterations ≠ [] := by
      simp [IterationDriver.begin_iteration]
    have hlen1 : ((d.begin_iteration (ctx.quality s.pos)).end_iteration
        (ctx.quality s1.pos)).iterations.length = d.iterations.length + 1 := by
      rw [end_iteration_length _ _ hne, begin_iteration_length]
    have h2 := hlen (by rw [hstepmax, hlen1]; omega)
    rw [hstepmax] at h2
    exact h2

/-- The optimize loop never increases the grid quality (under the clamps'
construction invariant and distinct clamp vertices). -/
theorem optimize_run_mono (ctx : OptCtx)
    (hcov : ∀ jv ∈ ctx.ordered, jv ∈ ctx.junctions)
    (hdist : DistinctClampVertices ctx) :
    ∀ (d : IterationDriver) (s : OptState), ClampInv ctx s →
      ∃ d1 s1, optimize_run ctx d s = Except.ok (d1, s1) ∧
        ctx.quality s1.pos ≤ ctx.quality s.pos ∧ ClampInv ctx s1 := by
  intro d s
  induction d, s using optimize_run.induct ctx with
  | case1 d s h =>
    intro hinv
    exact ⟨d, s, by rw [optimize_run.eq_def, dif_pos h], le_refl _, hinv⟩
  | case2 d s h e herr =>
    intro hinv
    obtain ⟨s1, hok, _, _⟩ :=
      optimize_junctions_ok ctx d.next_relaxation ctx.ordered s hcov
    unfold optimize_iteration at herr
    rw [hok] at herr
    cases herr
  | case3 d s h d1 s1 hok ih =>
    intro hinv
    obtain ⟨s1', hok', hle', hinv'⟩ :=
      optimize_junctions_mono ctx d.next_relaxation ctx.ordered s hcov hinv hdist
    unfold optimize_iteration at hok
    rw [hok'] at hok
    obtain rfl : s1' = s1 := Except.ok.inj hok
    obtain ⟨d2, s2, hrun, hle2, hinv2⟩ := ih hinv'
    have hstep : optimize_run ctx d s = optimize_run ctx
        ((d.begin_iteration (ctx.quality s.pos)).end_iteration
          (ctx.quality s1'.pos)) s1' := by
      rw [optimize_run.eq_def, dif_neg h]
      unfold optimize_iteration
      simp only [hok']
    exact ⟨d2, s2, hstep ▸ hrun, le_trans hle2 hle', hinv2⟩

/-- C5: running the per-junction loop is non-fatal: with the ordered junctions
drawn from the grid's junction list, `optimize_iteration` completes over all
junctions without propagating an error; a registered clamp whose vertex has no
junction is never selected, so its parameters and its vertex position are
untouched, and a junction vertex with no matching clamp (the caught
`NoClampError`) is never moved. -/
theorem claim_C5 (ctx : OptCtx) (relaxation : ℚ) (s : OptState)
    (hcov : ∀ jv ∈ ctx.ordered, jv ∈ ctx.junctions) :
    ∃ s1, optimize_iteration ctx relaxation s = Except.ok s1 ∧
      (∀ (i : ℕ) (c : OClamp), ctx.clamps[i]? = some c →
        c.vertex ∉ ctx.junctions →
        s1.params i = s.params i ∧ s1.pos c.vertex = s.pos c.vertex) ∧
      (∀ v, (∀ (i : ℕ) (c : OClamp), ctx.clamps[i]? = some c → c.vertex ≠ v) →
        s1.pos v = s.pos v) :=
  optimize_junctions_ok ctx relaxation ctx.ordered s hcov

/-- C6: whenever the grid quality measured after the bounded local
minimization is strictly worse than before it, `optimize_clamp` restores the
clamp's parameters to their exact pre-move values and the vertex to its exact
pre-move position (given the construction invariant that the vertex sits at
its parameters' position), and the condition is a normal return, not an
exception. -/
theorem claim_C6 (ctx : OptCtx) (c : OClamp) (i : ℕ) (relaxation : ℚ)
    (s : OptState)
    (hjv : c.vertex ∈ ctx.junctions)
    (hstart : s.pos c.vertex = c.posFn (s.params i))
    (hworse : ctx.quality s.pos <
      ctx.quality (update_params c i s
        (ctx.minimizer (fquality ctx c i c.vertex s) (s.params i)) 1).pos) :
    ∃ s1 q, optimize_clamp ctx c i relaxation s = Except.ok (s1, q) ∧
      (∀ j, s1.params j = s.params j) ∧ (∀ v, s1.pos v = s.pos v) := by
  rw [optimize_clamp_eq ctx c i relaxation s hjv]
  rw [if_pos hworse]
  refine ⟨_, _, rfl, ?_, ?_⟩
  · intro j
    by_cases hj : j = i
    · subst hj
      rw [update_params_params, if_pos rfl]
    · rw [update_params_params, if_neg hj, update_params_params, if_neg hj]
  · intro v
    by_cases hv : v = c.vertex
    · subst hv
      rw [update_params_pos, if_pos rfl, Pt.lerp_one, hstart]
    · rw [update_params_pos, if_neg hv, update_params_pos, if_neg hv]

/-- C1: for an assembled mesh with registered clamps satisfying the
construction invariant (each vertex at its clamp parameters' position — any
legal starting displacement) and distinct clamp vertices, `optimize` returns
and the grid quality after it is at most the grid quality before it. -/
theorem claim_C1 (ctx : OptCtx) (s : OptState)
    (max_iterations relaxed_iterations : ℕ) (tolerance : ℚ)
    (hclamps : ctx.clamps ≠ [])
    (hcov : ∀ jv ∈ ctx.ordered, jv ∈ ctx.junctions)
    (hinv : ClampInv ctx s) (hdist : DistinctClampVertices ctx) :
    ∃ d1 s1, optimize_run ctx
        ⟨max_iterations, relaxed_iterations, tolerance, []⟩ s =
        Except.ok (d1, s1) ∧
      ctx.quality s1.pos ≤ ctx.quality s.pos := by
  obtain ⟨d1, s1, hrun, hle, _⟩ := optimize_run_mono ctx hcov hdist
    ⟨max_iterations, relaxed_iterations, tolerance, []⟩ s hinv
  exact ⟨d1, s1, hrun, hle⟩

/-- C9: convergence is impossible below two completed iterations, and the
optimize loop always terminates with between 2 and `max 2 max_iterations`
executed iterations — so `max_iterations = 0` or `1` still executes exactly
two. -/
theorem claim_C9 (ctx : OptCtx) (s : OptState)
    (max_iterations relaxed_iterations : ℕ) (tolerance : ℚ)
    (hcov : ∀ jv ∈ ctx.ordered, jv ∈ ctx.junctions) :
    (∀ d : IterationDriver, d.iterations.length < 2 → d.converged = false) ∧
    ∃ d1 s1, optimize_run ctx
        ⟨max_iterations, relaxed_iterations, tolerance, []⟩ s =
        Except.ok (d1, s1) ∧
      2 ≤ d1.iterations.length ∧
      d1.iterations.length ≤ max 2 max_iterations := by
  constructor
  · intro d hlen
    unfold IterationDriver.converged
    rw [if_pos (by omega)]
  · obtain ⟨d1, s1, hrun, hconv, hmax, hlen⟩ := optimize_run_ok ctx hcov
      ⟨max_iterations, relaxed_iterations, tolerance, []⟩ s
    exact ⟨d1, s1, hrun, converged_min_two hconv, hlen (by simp)⟩

/-- A one-clamp, one-junction context for the optimizer witnesses: the clamp
moves vertex 0 along the x-axis, quality is the x-coordinate of vertex 0, and
the minimization oracle returns its starting parameters. -/
def clampW : OClamp := ⟨0, fun ps => ⟨ps.getD 0 0, 0, 0⟩, false⟩

def ctxW : OptCtx :=
  ⟨[clampW], [0], [0], fun pos => (pos 0).x, fun _ _ => 0, fun _ ps => ps⟩

def sW : OptState := ⟨fun _ => ⟨0, 0, 0⟩, fun _ => [0]⟩

theorem ctxW_inv : ClampInv ctxW sW := by
  intro i c hc
  match i with
  | 0 =>
    simp only [ctxW, List.getElem?_cons_zero, Option.some.injEq] at hc
    subst hc
    rfl
  | i + 1 =>
    simp [ctxW] at hc

theorem ctxW_dist : DistinctClampVertices ctxW := by
  intro i j ci cj hi hj hne
  match i, j with
  | 0, 0 => exact absurd rfl hne
  | 0, j + 1 => simp [ctxW] at hj
  | i + 1, _ => simp [ctxW] at hi

/-- Witness for C1: the monotonicity theorem instantiated at the one-clamp
context with the default twenty-iteration budget. -/
theorem claim_C1_witness :
    ∃ d1 s1, optimize_run ctxW ⟨20, 2, 1 / 10, []⟩ sW = Except.ok (d1, s1) ∧
      ctxW.quality s1.pos ≤ ctxW.quality sW.pos :=
  claim_C1 ctxW sW 20 2 (1 / 10) (by simp [ctxW]) (by simp [ctxW]) ctxW_inv
    ctxW_dist

/-- Witness for C9: the termination theorem instantiated at the one-clamp
context with a zero iteration budget (still two iterations execute). -/
theorem claim_C9_witness :
    (∀ d : IterationDriver, d.iterations.length < 2 → d.converged = false) ∧
    ∃ d1 s1, optimize_run ctxW ⟨0, 2, 1 / 10, []⟩ sW = Except.ok (d1, s1) ∧
      2 ≤ d1.iterations.length ∧ d1.iterations.length ≤ max 2 0 :=
  claim_C9 ctxW sW 0 2 (1 / 10) (by simp [ctxW])

/-- A context whose only clamp's vertex (5) has no junction, for the C5
witness. -/
def clampV : OClamp := ⟨5, fun _ => ⟨0, 0, 0⟩, false⟩

def ctxV : OptCtx :=
  ⟨[clampV], [0], [0], fun _ => 0, fun _ _ => 0, fun _ ps => ps⟩

/-- Witness for C5: the per-junction loop at a context whose clamp's vertex
has no junction and whose junction has no clamp. -/
theorem claim_C5_witness :
    ∃ s1, optimize_iteration ctxV 1 sW = Except.ok s1 ∧
      (∀ (i : ℕ) (c : OClamp), ctxV.clamps[i]? = some c →
        c.vertex ∉ ctxV.junctions →
        s1.params i = sW.params i ∧ s1.pos c.vertex = sW.pos c.vertex) ∧
      (∀ v, (∀ (i : ℕ) (c : OClamp), ctxV.clamps[i]? = some c → c.vertex ≠ v) →
        s1.pos v = sW.pos v) :=
  claim_C5 ctxV 1 sW (by simp [ctxV])

/-- A context whose minimization oracle moves the vertex to a strictly worse
position, for the C6 rollback witness. -/
def ctxR : OptCtx :=
  ⟨[clampW], [0], [0], fun pos => (pos 0).x, fun _ _ => 0, fun _ _ => [1]⟩

/-- Witness for C6: the rollback theorem instantiated at a context whose
minimizer makes the quality strictly worse. -/
theorem claim_C6_witness :
    ∃ s1 q, optimize_clamp ctxR clampW 0 1 sW = Except.ok (s1, q) ∧
      (∀ j, s1.params j = sW.params j) ∧ (∀ v, s1.pos v = sW.pos v) :=
  claim_C6 ctxR clampW 0 1 sW (by simp [ctxR, clampW]) rfl (by decide!)

/-! ## PlaneClamp (`src/src/classy_blocks/modify/clamps/surface.py`), in exact
real arithmetic -/

/-- A 3D vector with real coordinates (the clamp geometry uses square roots,
so the exact-arithmetic statement lives over `ℝ`). -/
structure Vec3 where
  x : ℝ
  y : ℝ
  z : ℝ

def Vec3.add (a b : Vec3) : Vec3 := ⟨a.x + b.x, a.y + b.y, a.z + b.z⟩

def Vec3.sub (a b : Vec3) : Vec3 := ⟨a.x - b.x, a.y - b.y, a.z - b.z⟩

def Vec3.smul (r : ℝ) (a : Vec3) : Vec3 := ⟨r * a.x, r * a.y, r * a.z⟩

def Vec3.dot (a b : Vec3) : ℝ := a.x * b.x + a.y * b.y + a.z * b.z

/-- `np.cross`. -/
def Vec3.cross (a b : Vec3) : Vec3 :=
  ⟨a.y * b.z - a.z * b.y, a.z * b.x - a.x * b.z, a.x * b.y - a.y * b.x⟩

/-- Modelled from the spec: `f.unit_vector` (`util/functions.py` is not under
`src/`): the vector scaled by the inverse of its Euclidean norm. -/
noncomputable def unit_vector (a : Vec3) : Vec3 :=
  Vec3.smul (Real.sqrt (Vec3.dot a a))⁻¹ a

/-- `u_dir` of `PlaneClamp.__init__`: with `n = unit_vector(normal)` and
`random_dir = unit_vector(n + random)` for the drawn random offset,
`u_dir = unit_vector(cross(random_dir, n))`. -/
noncomputable def plane_u_dir (normal randomv : Vec3) : Vec3 :=
  unit_vector (Vec3.cross (unit_vector (Vec3.add (unit_vector normal) randomv))
    (unit_vector normal))

/-- `v_dir = unit_vector(cross(u_dir, n))`. -/
noncomputable def plane_v_dir (normal randomv : Vec3) : Vec3 :=
  unit_vector (Vec3.cross (plane_u_dir normal randomv) (unit_vector normal))

/-- `PlaneClamp`'s `position_function`:
`point + params[0] * u_dir + params[1] * v_dir`. -/
noncomputable def planePosition (point normal randomv : Vec3) (u v : ℝ) : Vec3 :=
  Vec3.add point (Vec3.add (Vec3.smul u (plane_u_dir normal randomv))
    (Vec3.smul v (plane_v_dir normal randomv)))

theorem Vec3.dot_smul_left (r : ℝ) (a b : Vec3) :
    Vec3.dot (Vec3.smul r a) b = r * Vec3.dot a b := by
  simp only [Vec3.dot, Vec3.smul]
  ring

theorem Vec3.cross_smul_right (r : ℝ) (a b : Vec3) :
    Vec3.cross a (Vec3.smul r b) = Vec3.smul r (Vec3.cross a b) := by
  simp only [Vec3.cross, Vec3.smul, Vec3.mk.injEq]
  refine ⟨by ring, by ring, by ring⟩

theorem Vec3.dot_cross_left (a b : Vec3) : Vec3.dot (Vec3.cross a b) b = 0 := by
  simp only [Vec3.dot, Vec3.cross]
  ring

theorem Vec3.dot_add_left (a b c : Vec3) :
    Vec3.dot (Vec3.add a b) c = Vec3.dot a c + Vec3.dot b c := by
  simp only [Vec3.dot, Vec3.add]
  ring

theorem Vec3.sub_add_cancel_left (a w : Vec3) :
    Vec3.sub (Vec3.add a w) a = w := by
  cases a
  cases w
  simp only [Vec3.sub, Vec3.add, Vec3.mk.injEq]
  refine ⟨by ring, by ring, by ring⟩

/-- Any normalized cross product with the normalized normal is orthogonal to
the original normal. -/
theorem unit_cross_unit_dot (normal w : Vec3) :
    Vec3.dot (unit_vector (Vec3.cross w (unit_vector normal))) normal = 0 := by
  show Vec3.dot (Vec3.smul _ (Vec3.cross w (Vec3.smul _ normal))) normal = 0
  rw [Vec3.dot_smul_left, Vec3.cross_smul_right, Vec3.dot_smul_left,
    Vec3.dot_cross_left]
  ring

/-- C10: for every `PlaneClamp` built from a point and a non-zero normal, and
for every draw of the internal random basis direction, every parameter pair's
position lies in the plane through the point with that normal —
`(position(u, v) − point) · normal = 0` in exact arithmetic — and
`position(0, 0)` is exactly the given point. -/
theorem claim_C10 (point normal randomv : Vec3) (u v : ℝ)
    (hn : normal ≠ ⟨0, 0, 0⟩) :
    Vec3.dot (Vec3.sub (planePosition point normal randomv u v) point) normal
      = 0 ∧
    planePosition point normal randomv 0 0 = point := by
  constructor
  · unfold planePosition
    rw [Vec3.sub_add_cancel_left, Vec3.dot_add_left, Vec3.dot_smul_left,
      Vec3.dot_smul_left]
    rw [show Vec3.dot (plane_u_dir normal randomv) normal = 0 from
        unit_cross_unit_dot normal _,
      show Vec3.dot (plane_v_dir normal randomv) normal = 0 from
        unit_cross_unit_dot normal _]
    ring
  · unfold planePosition
    cases point
    simp only [Vec3.add, Vec3.smul, Vec3.mk.injEq]
    refine ⟨by ring, by ring, by ring⟩

/-- Witness for C10: the plane theorem at point (1,2,3), normal (0,0,1), a
concrete random draw and parameters (1, 2). -/
theorem claim_C10_witness :
    Vec3.dot (Vec3.sub
        (planePosition ⟨1, 2, 3⟩ ⟨0, 0, 1⟩ ⟨1/2, 1/3, 1/4⟩ 1 2) ⟨1, 2, 3⟩)
      ⟨0, 0, 1⟩ = 0 ∧
    planePosition ⟨1, 2, 3⟩ ⟨0, 0, 1⟩ ⟨1/2, 1/3, 1/4⟩ 0 0 = ⟨1, 2, 3⟩ :=
  claim_C10 ⟨1, 2, 3⟩ ⟨0, 0, 1⟩ ⟨1/2, 1/3, 1/4⟩ 1 2
    (by simp [Vec3.mk.injEq])

end ClassyBlocks
